import Mathlib

/-!
Verification development for the résumé text-analysis engine in
`src/utils/analysis.py` (tokenizer, role-keyword resolver, keyword
categorizer, section detector, ATS scorer, recruiter-scan analyzer,
visual-insights analyzer, achievement flagger).

Modelling conventions (shallow embedding of the Python source):
* Python `str` is modelled by `String` / `List Char`; `str.lower()` is
  modelled by the ASCII mapping `pyLower` (the source only ever matches
  ASCII keywords, aliases and bullet glyphs).
* Python float arithmetic in the scorer is modelled by exact rational
  arithmetic over `ℚ`; `int(x)` (truncation toward zero) is `pytrunc`.
* Python dicts that the source builds by insertion (`defaultdict`,
  comprehensions) are modelled by insertion-ordered association lists
  `List (String × Nat)`.
* Python sets of strings are modelled by `Finset String`; the source
  only uses membership, `len`, and `sorted(...)` on them.
* `re.findall` for the two patterns used by the source is modelled by
  explicit scanners (`tokenizeAux`, `genScanF`) that follow the leftmost,
  non-overlapping, greedy-with-backtracking semantics of the patterns
  `[A-Za-z][A-Za-z\-\+\#/0-9]*` and a newline-or-start anchored bullet
  pattern.
-/

set_option autoImplicit false

namespace Resume

/-- Whitespace characters of Python `str.isspace` / regex `\s` (also used by
`str.strip` and `str.split()`). -/
def isPySpace (c : Char) : Bool :=
  let n := c.toNat
  n = 0x20 || (0x9 ≤ n && n ≤ 0xd) || (0x1c ≤ n && n ≤ 0x1f) || n = 0x85 ||
    n = 0xa0 || n = 0x1680 || (0x2000 ≤ n && n ≤ 0x200a) || n = 0x2028 ||
    n = 0x2029 || n = 0x202f || n = 0x205f || n = 0x3000

/-- Line-boundary characters recognised by Python `str.splitlines`. -/
def isLineBreak (c : Char) : Bool :=
  let n := c.toNat
  n = 0xa || n = 0xd || n = 0xb || n = 0xc || (0x1c ≤ n && n ≤ 0x1e) ||
    n = 0x85 || n = 0x2028 || n = 0x2029

/-- Word characters for the regex `\b` boundary (ASCII fragment of `\w`;
the alias phrases being matched are ASCII). -/
def isWordChar (c : Char) : Bool :=
  c.isAlphanum || c = '_'

/-- Bullet glyphs of the achievement-flagger pattern `[\-•\*]`. -/
def isGlyph (c : Char) : Bool :=
  c = '-' || c = '•' || c = '*'

/-- ASCII lowering, modelling `str.lower()` on the ASCII letters that the
source's keyword, alias and vague-phrase tables consist of: code points
65–90 are shifted by 32, everything else is unchanged. -/
def pyLower (c : Char) : Char :=
  if 65 ≤ c.toNat ∧ c.toNat ≤ 90 then Char.ofNat (c.toNat + 32) else c

/-- Start character of a token: the regex class `[A-Za-z]`. -/
def isTokStart (c : Char) : Bool :=
  ('a' ≤ c && c ≤ 'z') || ('A' ≤ c && c ≤ 'Z')

/-- Continuation character of a token: the regex class `[A-Za-z\-\+\#/0-9]`. -/
def isTokCont (c : Char) : Bool :=
  isTokStart c || c.isDigit || c = '-' || c = '+' || c = '#' || c = '/'

/-- Fuelled worker for `pySplitlines`; every step consumes at least one
character, so any fuel exceeding the length computes the function. -/
def pySplitlinesF : Nat → List Char → List (List Char)
  | 0, _ => []
  | _ + 1, [] => []
  | fuel + 1, c :: cs =>
    if isLineBreak c then
      if c = '\r' && cs.head? = some '\n' then
        [] :: pySplitlinesF fuel cs.tail
      else [] :: pySplitlinesF fuel cs
    else
      match pySplitlinesF fuel cs with
      | [] => [[c]]
      | line :: rest => (c :: line) :: rest

/-- Python `str.splitlines()` (without keeping line ends); `\r\n` counts as a
single boundary and a trailing boundary produces no empty final line. -/
def pySplitlines (l : List Char) : List (List Char) :=
  pySplitlinesF (l.length + 1) l

/-- Python `str.lstrip()`. -/
def pyLstrip (l : List Char) : List Char :=
  l.dropWhile isPySpace

/-- Python `str.rstrip()`. -/
def pyRstrip (l : List Char) : List Char :=
  (l.reverse.dropWhile isPySpace).reverse

/-- Python `str.strip()`. -/
def pyStrip (l : List Char) : List Char :=
  pyRstrip (pyLstrip l)

/-- Fuelled worker for `pySplit`. -/
def pySplitF : Nat → List Char → List (List Char)
  | 0, _ => []
  | _ + 1, [] => []
  | fuel + 1, c :: cs =>
    if isPySpace c then pySplitF fuel cs
    else (c :: cs.takeWhile (fun d => ¬ isPySpace d)) ::
      pySplitF fuel (cs.dropWhile (fun d => ¬ isPySpace d))

/-- Python `str.split()` (split on runs of whitespace, dropping empties). -/
def pySplit (l : List Char) : List (List Char) :=
  pySplitF (l.length + 1) l

/-- Fuelled worker for `tokenizeAux`. -/
def tokenizeF : Nat → List Char → List (List Char)
  | 0, _ => []
  | _ + 1, [] => []
  | fuel + 1, c :: cs =>
    if isTokStart c then
      (c :: cs.takeWhile isTokCont) :: tokenizeF fuel (cs.dropWhile isTokCont)
    else tokenizeF fuel cs

/-- Scanner for `re.findall(r"[A-Za-z][A-Za-z\-\+\#/0-9]*", ...)`: leftmost
non-overlapping maximal matches. -/
def tokenizeAux (l : List Char) : List (List Char) :=
  tokenizeF (l.length + 1) l

/-- Substring containment, modelling the Python `in` operator on strings. -/
def containsSub (pat l : List Char) : Bool :=
  decide (pat <:+: l)

/-- Search for `pat` with regex word boundaries `\b` on both sides, modelling
`re.compile(rf"\b{re.escape(alias)}\b", re.IGNORECASE).search(lower)` for an
alias already in lowercase on text already lowercased. -/
def hasWBMatch (pat l : List Char) : Bool :=
  (List.range (l.length + 1)).any fun i =>
    pat.isPrefixOf (l.drop i)
      && (i = 0 || ¬ isWordChar (l.getD (i - 1) ' '))
      && ¬ isWordChar (l.getD (i + pat.length) ' ')

/-- Fuelled worker for `firstUniques`. -/
def firstUniquesF : Nat → List String → List String
  | 0, _ => []
  | _ + 1, [] => []
  | fuel + 1, a :: l => a :: firstUniquesF fuel (l.filter (fun b => ¬ b = a))

/-- Keep the first occurrence of every element, in order (the key order of a
`collections.Counter` built from the list). -/
def firstUniques (l : List String) : List String :=
  firstUniquesF (l.length + 1) l

/-- Stable insertion (by descending count, later keys after equal counts),
building the order of `Counter.most_common`. -/
def insertByCnt (cnt : String → Nat) : List String → String → List String
  | [], x => [x]
  | y :: ys, x => if cnt x ≤ cnt y then y :: insertByCnt cnt ys x else x :: y :: ys

/-- Keys of `Counter(l).most_common n`: distinct elements sorted by count
descending, ties in first-occurrence order, truncated to `n`. -/
def mostCommonKeys (l : List String) (n : Nat) : List String :=
  ((firstUniques l).foldl (insertByCnt (fun y => l.count y)) []).take n

/-- Characters of `"\n".join`. -/
def joinNLChars : List (List Char) → List Char
  | [] => []
  | [l] => l
  | l :: ls => l ++ '\n' :: joinNLChars ls

/-- Join a list of character lists with newline, modelling `"\n".join`. -/
def joinNL (ls : List (List Char)) : String :=
  String.mk (joinNLChars ls)

/-- Canonical résumé section names, in source order. -/
def CANONICAL_SECTIONS : List String :=
  ["summary", "experience", "education", "skills", "projects", "certifications",
   "publications"]

/-- Alias table mapping heading phrases to canonical sections, in source
(dict-insertion) order. -/
def SECTION_ALIASES : List (String × String) := [
  ("professional summary", "summary"),
  ("profile", "summary"),
  ("objective", "summary"),
  ("work experience", "experience"),
  ("employment", "experience"),
  ("work history", "experience"),
  ("professional experience", "experience"),
  ("education", "education"),
  ("academics", "education"),
  ("skills", "skills"),
  ("technical skills", "skills"),
  ("projects", "projects"),
  ("personal projects", "projects"),
  ("certifications", "certifications"),
  ("licenses", "certifications"),
  ("publications", "publications")]

/-- Keyword vocabulary of the "software engineer" role preset. -/
def softwareEngineerKeywords : List String :=
  ["java", "python", "javascript", "react", "node", "api", "rest", "graphql",
   "docker", "kubernetes", "git", "ci/cd", "unit testing", "microservices",
   "sql", "nosql", "design patterns", "testing"]

/-- Role-preset catalog: role-label substring to keyword vocabulary, in source
(dict-insertion) order. -/
def ROLE_PRESETS : List (String × List String) := [
  ("data scientist",
   ["python", "pandas", "numpy", "sklearn", "tensorflow", "pytorch", "sql",
    "statistics", "ml", "classification", "regression", "nlp",
    "feature engineering", "model deployment", "experiment tracking",
    "tableau", "powerbi", "aws", "gcp", "azure", "airflow", "mlflow"]),
  ("data analyst",
   ["sql", "excel", "powerbi", "tableau", "python", "pandas", "visualization",
    "dashboard", "a/b testing", "forecasting", "etl", "reporting",
    "statistics", "segmentation", "ga4", "lookerstudio"]),
  ("software engineer", softwareEngineerKeywords),
  ("frontend developer",
   ["javascript", "typescript", "react", "next.js", "redux", "html", "css",
    "tailwind", "vite", "webpack", "accessibility", "lighthouse", "jest",
    "cypress"]),
  ("backend developer",
   ["node", "express", "java", "spring", "python", "django", "flask",
    "fastapi", "rest", "graphql", "sql", "postgres", "mysql", "redis",
    "docker", "kubernetes", "microservices", "auth", "queue", "rabbitmq",
    "kafka"]),
  ("devops engineer",
   ["docker", "kubernetes", "terraform", "ansible", "aws", "gcp", "azure",
    "ci/cd", "github actions", "gitlab ci", "monitoring", "prometheus",
    "grafana", "helm", "istio", "argocd"]),
  ("cloud architect",
   ["aws", "gcp", "azure", "iam", "vpc", "load balancer", "scalability",
    "cost optimization", "serverless", "lambda", "cloudformation",
    "terraform", "kubernetes", "disaster recovery"]),
  ("product manager",
   ["roadmap", "stakeholders", "requirements", "user research", "kpi",
    "okrs", "backlog", "prioritization", "go to market", "a/b testing",
    "analytics", "jira", "wireframes", "specs"]),
  ("ux designer",
   ["ux research", "wireframing", "prototyping", "figma", "usability testing",
    "information architecture", "heuristic evaluation", "design system",
    "accessibility", "persona", "journey map"]),
  ("business analyst",
   ["requirements", "process mapping", "sql", "excel", "dashboards",
    "stakeholder management", "gap analysis", "kpi", "user stories",
    "confluence", "jira"]),
  ("marketing manager",
   ["seo", "sem", "content strategy", "campaigns", "google ads",
    "facebook ads", "analytics", "crm", "a/b testing", "email marketing",
    "automation", "brand strategy", "roi"]),
  ("cybersecurity analyst",
   ["siem", "splunk", "wazuh", "ids/ips", "vulnerability management",
    "threat hunting", "incident response", "nmap", "wireshark", "linux",
    "mitre att&ck", "risk assessment"]),
  ("qa engineer",
   ["test cases", "test plans", "manual testing", "automation", "selenium",
    "cypress", "jest", "pytest", "ci/cd", "regression", "integration",
    "performance testing"]),
  ("housekeeper",
   ["cleaning", "sanitizing", "laundry", "organization", "time management",
    "attention to detail", "inventory", "safety procedures", "guest service",
    "housekeeping", "vacuuming", "mopping", "disinfection"])]

/-- Domain-preset catalog used by the categorizer, in source order. -/
def DOMAIN_PRESETS : List (String × List String) := [
  ("data scientist",
   ["regression", "classification", "nlp", "feature engineering",
    "model deployment", "experiment tracking", "ml"]),
  ("data analyst",
   ["a/b testing", "forecasting", "etl", "segmentation", "reporting"]),
  ("frontend developer",
   ["accessibility", "lighthouse", "performance", "ux"]),
  ("backend developer",
   ["microservices", "queue", "auth", "caching"]),
  ("devops engineer",
   ["monitoring", "observability", "infrastructure as code", "sre",
    "blue/green"]),
  ("cloud architect",
   ["disaster recovery", "cost optimization", "scalability", "multi region"]),
  ("product manager",
   ["roadmap", "prioritization", "okrs", "kpi", "go to market"]),
  ("ux designer",
   ["usability testing", "journey map", "persona", "heuristic evaluation"]),
  ("business analyst",
   ["gap analysis", "process mapping", "requirements"]),
  ("marketing manager",
   ["campaigns", "roi", "funnel", "brand strategy"]),
  ("cybersecurity analyst",
   ["threat hunting", "incident response", "risk assessment"]),
  ("qa engineer",
   ["test plans", "regression", "performance testing"]),
  ("housekeeper",
   ["cleaning", "sanitizing", "housekeeping", "laundry", "organization",
    "safety procedures", "guest service", "disinfection", "vacuuming",
    "mopping"])]

/-- Soft-skill bucket of the categorizer, from the source. -/
def softSkills : List String :=
  ["communication", "leadership", "collaboration", "time management",
   "attention to detail", "customer service", "problem solving", "teamwork",
   "stakeholder management", "presentation"]

/-- Tools/Tech bucket of the categorizer, from the source. -/
def toolsTech : List String :=
  ["python", "java", "sql", "excel", "tableau", "powerbi", "docker",
   "kubernetes", "git", "jira", "react", "node", "tensorflow", "pytorch",
   "terraform", "ansible", "aws", "gcp", "azure", "postgres", "mysql",
   "redis", "kafka", "figma", "selenium", "cypress"]

/-- Keyword lists of the pass-2 section-detection fallback, in source order. -/
def sectionHeuristics : List (String × List String) := [
  ("summary", ["summary", "objective", "profile"]),
  ("experience", ["experience", "managed", "lead", "developed", "responsible",
   "achieved"]),
  ("education", ["bsc", "msc", "university", "degree", "gpa", "bachelor",
   "master"]),
  ("skills", ["skills", "python", "java", "sql", "excel", "communication"]),
  ("projects", ["project", "built", "implemented", "designed"]),
  ("certifications", ["certified", "certificate", "certification"]),
  ("publications", ["publication", "journal", "conference"])]

/-- Vague-language phrase list of the achievement flagger, from the source. -/
def VAGUE_PATTERNS : List String :=
  ["responsible for", "worked on", "helped with", "assisted", "involved in"]

/-- Fixed rewrite-guidance string emitted by the achievement flagger. -/
def REWRITE_TIP : String :=
  "Rewrite with action + metric. Example: \x27Led a team of 8 to deliver X, achieving Y% improvement.\x27"

/-- Tokenizer `simple_tokenize`: lowercase, then all regex word-like matches. -/
def simple_tokenize (text : String) : List String :=
  (tokenizeAux (text.data.map pyLower)).map String.mk

/-- Role keyword resolver `role_keywords_for`. The source accepts `None` or a
string for the role label and the job description and treats `None` exactly
like the empty string (`job_role or ""` and falsy test `if job_desc:`), so
both are modelled as `String`. -/
def role_keywords_for (job_role : String) (job_desc : String)
    (resume_text : String) : Finset String :=
  let role_text := job_role.data.map pyLower
  match ROLE_PRESETS.find? (fun p => containsSub p.1.data role_text) with
  | some p => p.2.toFinset
  | none =>
    if job_desc ≠ "" then
      (mostCommonKeys
        ((simple_tokenize job_desc).filter (fun t => 3 ≤ t.length)) 60).toFinset
    else
      (mostCommonKeys (simple_tokenize resume_text) 40).toFinset

/-- Keyword categorizer `categorize_keywords`; the four buckets are returned
as an ordered association list, modelling the four-key dict of the source. -/
def categorize_keywords (job_role : String) (keywords : Finset String) :
    List (String × List String) :=
  let role_text := job_role.data.map pyLower
  let domain : List String :=
    match DOMAIN_PRESETS.find? (fun p => containsSub p.1.data role_text) with
    | some p => p.2
    | none => []
  let c := (keywords.sort (· ≤ ·)).foldl
    (fun (cats : List String × List String × List String × List String) k =>
      if k ∈ softSkills then (cats.1 ++ [k], cats.2.1, cats.2.2.1, cats.2.2.2)
      else if k ∈ toolsTech then (cats.1, cats.2.1 ++ [k], cats.2.2.1, cats.2.2.2)
      else if domain.contains k then (cats.1, cats.2.1, cats.2.2.1 ++ [k], cats.2.2.2)
      else (cats.1, cats.2.1, cats.2.2.1, cats.2.2.2 ++ [k]))
    ([], [], [], [])
  [("Soft skills", c.1), ("Tools/Tech", c.2.1), ("Domain", c.2.2.1),
   ("Other", c.2.2.2)]

/-- Add `w` to the entry of `key`, appending a new entry at the end on first
access — the behaviour of `defaultdict(int)` under `d[key] += w`. -/
def bump (m : List (String × Nat)) (key : String) (w : Nat) :
    List (String × Nat) :=
  match m with
  | [] => [(key, w)]
  | (k, v) :: rest =>
    if k = key then (k, v + w) :: rest else (k, v) :: bump rest key w

/-- Non-blank lines of the section detector:
`[l.rstrip() for l in text.splitlines() if l.strip()]`. -/
def detectLines (text : String) : List (List Char) :=
  (((pySplitlines text.data).filter
    (fun l => ¬ (pyStrip l).isEmpty)).map pyRstrip)

/-- Heading-driven pass 1 of the section detector: walk the lines keeping a
current section (initially "summary"), switch on an alias match in a
heading-eligible line (length ≤ 120), and credit each line
`max(1, len(line) // 60)` to the current section. -/
def detectPass1 (lines : List (List Char)) : List (String × Nat) :=
  (lines.foldl
    (fun (st : String × List (String × Nat)) line =>
      let lower := line.map pyLower
      let isHeading := line.length ≤ 120
      let matched := SECTION_ALIASES.find? (fun p => hasWBMatch p.1.data lower)
      let current :=
        match matched with
        | some p => if isHeading then p.2 else st.1
        | none => st.1
      (current, bump st.2 current (max 1 (line.length / 60))))
    ("summary", [])).2

/-- Canonical-section subtotal of pass 1 (the source's `non_other`). -/
def pass1Canonical (text : String) : List (String × Nat) :=
  (detectPass1 (detectLines text)).filter (fun p => p.1 ∈ CANONICAL_SECTIONS)

/-- Keyword-density fallback (pass 2) of the section detector. -/
def detectFallback (text : String) : List (String × Nat) :=
  let tokens := simple_tokenize text
  let base := sectionHeuristics.map
    (fun p => (p.1, (p.2.map (fun k => tokens.count k)).sum))
  let normed := base.map
    (fun p => if 0 < p.2 then (p.1, max 1 (p.2 / 2)) else p)
  normed.filter (fun p => 0 < p.2)

/-- Section detector `detect_sections`. -/
def detect_sections (text : String) : List (String × Nat) :=
  let non_other := pass1Canonical text
  if non_other.isEmpty ∨ (non_other.map (fun p => p.2)).sum < 3 then
    detectFallback text
  else non_other

/-- Missing-keyword list of the ATS scorer: role keywords with no exact token
match in the résumé, sorted ascending. -/
def atsMissing (resume_text : String) (role_keywords : Finset String) :
    List String :=
  (role_keywords.filter
    (fun k => ¬ k ∈ (simple_tokenize resume_text).toFinset)).sort (· ≤ ·)

/-- Coverage of the ATS scorer: `1.0 - len(missing) / max(1, len(keywords))`,
in exact rational arithmetic. -/
def atsCoverage (resume_text : String) (role_keywords : Finset String) : ℚ :=
  1 - ((atsMissing resume_text role_keywords).length : ℚ) /
    ((max 1 role_keywords.card : Nat) : ℚ)

/-- Truncation toward zero, modelling Python `int()` on a finite float. -/
def pytrunc (q : ℚ) : ℤ :=
  if 0 ≤ q then ⌊q⌋ else ⌈q⌉

/-- Result record of `compute_ats_score` (the three-key dict of the source). -/
structure AtsResult where
  score : ℤ
  missing_keywords : List String
  detected_sections : List (String × Nat)
deriving DecidableEq, Repr

/-- ATS scorer `compute_ats_score`. -/
def compute_ats_score (resume_text : String) (role_keywords : Finset String) :
    AtsResult :=
  let missing := atsMissing resume_text role_keywords
  let coverage := atsCoverage resume_text role_keywords
  let section_info := detect_sections resume_text
  let score := pytrunc
    (60 * coverage + 40 * min 1 ((section_info.length : ℚ) / 6))
  { score := max 0 (min 100 score)
    missing_keywords := missing.take 100
    detected_sections := section_info }

/-- Recruiter-scan analyzer `analyze_recruiter_scan`; the returned pair is
(highlights, ignored). -/
def analyze_recruiter_scan (resume_text : String) : String × String :=
  let first_lines := (((pySplitlines resume_text.data).take 20).filter
    (fun l => ¬ (pyStrip l).isEmpty)).map pyStrip
  let highlights := joinNL (first_lines.take 8)
  let ignored :=
    if 8 < first_lines.length then joinNL (first_lines.drop 8)
    else "Short resume header; focus on punchy summary."
  (if highlights = "" then "No immediate highlights detected." else highlights,
   ignored)

/-- Round half to even at integer precision (Python `round` on an exact
value). -/
def rhe (q : ℚ) : ℤ :=
  if q - ⌊q⌋ < 1/2 then ⌊q⌋
  else if 1/2 < q - ⌊q⌋ then ⌊q⌋ + 1
  else if ⌊q⌋ % 2 = 0 then ⌊q⌋ else ⌊q⌋ + 1

/-- Python `round(x, 2)` modelled over exact rationals. -/
def round2 (q : ℚ) : ℚ :=
  (rhe (q * 100) : ℚ) / 100

/-- Result record of `analyze_visual_insights` (its nested dicts flattened:
`readability` contributes the last three fields). -/
structure VisualResult where
  keyword_density : List (String × Nat)
  section_balance : List (String × Nat)
  avg_sentence_length : ℚ
  word_count : Nat
  estimated_read_time_min : ℚ
deriving DecidableEq, Repr

/-- Visual-insights analyzer `analyze_visual_insights`. -/
def analyze_visual_insights (resume_text : String)
    (role_keywords : Finset String) : VisualResult :=
  let tokens := simple_tokenize resume_text
  let keyword_counts := ((role_keywords.sort (· ≤ ·)).take 25).map
    (fun k => (k, tokens.count k))
  let sections := detect_sections resume_text
  let words := tokens.length
  let sentences := max 1
    (resume_text.data.count '.' + resume_text.data.count '!' +
      resume_text.data.count '?')
  { keyword_density := keyword_counts
    section_balance := sections
    avg_sentence_length := round2 ((words : ℚ) / (sentences : ℚ))
    word_count := words
    estimated_read_time_min := round2 ((words : ℚ) / 200) }

/-- Capture of the bullet pattern after its glyph: `\s+(.+)` with greedy
matching and backtracking, on the characters following the glyph. Returns
the captured group and the characters remaining after the match. -/
def findCapture (l : List Char) : Option (List Char × List Char) :=
  let w := l.takeWhile isPySpace
  let rest := l.dropWhile isPySpace
  if w.isEmpty then none
  else if rest.isEmpty then
    -- the whitespace run reaches the end of the text: `\s+` backtracks until
    -- `.+` can consume a character that is not a newline
    let tl := (w.drop 1).reverse
    match tl.dropWhile (fun c => c = '\n') with
    | [] => none
    | c :: _ => some ([c], (tl.takeWhile (fun c => c = '\n')).reverse)
  else
    some (rest.takeWhile (fun c => ¬ c = '\n'),
      rest.dropWhile (fun c => ¬ c = '\n'))

/-- Reading of the amended bullet extraction without regex backtracking: the
capture is the remainder of the line from the first non-whitespace character
after the glyph and its whitespace separator; when the whitespace after the
glyph runs to the end of the text there is no item. -/
def specFindCapture (l : List Char) : Option (List Char × List Char) :=
  let w := l.takeWhile isPySpace
  let rest := l.dropWhile isPySpace
  if w.isEmpty then none
  else if rest.isEmpty then none
  else
    some (rest.takeWhile (fun c => ¬ c = '\n'),
      rest.dropWhile (fun c => ¬ c = '\n'))

/-- Single match attempt of the bullet pattern at the head of the text:
the anchor `(?:^|\n)` (with `^` only applying at the very start), then a
glyph, then the capture rule `fc` for `\s+(.+)`. -/
def scanAttempt (fc : List Char → Option (List Char × List Char))
    (c : Char) (cs : List Char) (atStart : Bool) :
    Option (List Char × List Char) :=
  if atStart && isGlyph c then fc cs
  else if c = '\n' then
    match cs with
    | g :: cs2 => if isGlyph g then fc cs2 else none
    | [] => none
  else none

/-- Fuelled scanner for `re.findall(r"(?:^|\n)[\-•\*]\s+(.+)", ...)` (see
`scanAttempt`): leftmost matches, scanning resumes after each match,
parametrized by the capture rule used after an anchored glyph. The fuel only
needs to exceed the number of characters, as every step consumes at least
one. -/
def genScanF (fc : List Char → Option (List Char × List Char)) :
    Nat → List Char → Bool → List (List Char)
  | 0, _, _ => []
  | _ + 1, [], _ => []
  | fuel + 1, c :: cs, atStart =>
    match scanAttempt fc c cs atStart with
    | some (cap, rest) => cap :: genScanF fc fuel rest false
    | none => genScanF fc fuel cs false

/-- Bullet-like captures of the achievement flagger on a text. -/
def scanBullets (text : String) : List (List Char) :=
  genScanF findCapture (text.data.length + 1) text.data true

/-- Bullet-like captures under the amended (backtracking-free) reading. -/
def specScanBullets (text : String) : List (List Char) :=
  genScanF specFindCapture (text.data.length + 1) text.data true

/-- Filter of the achievement flagger: a vague phrase occurs in the lowered
bullet and the bullet has at least 4 whitespace-delimited words. -/
def bulletFlag (b : List Char) : Bool :=
  (VAGUE_PATTERNS.any (fun p => containsSub p.data (b.map pyLower)))
    && decide (4 ≤ (pySplit b).length)

/-- Achievement flagger `suggest_quantified_achievements`; each suggestion
dict is modelled as the pair (original, suggestion). -/
def suggest_quantified_achievements (resume_text : String) :
    List (String × String) :=
  let bullet_like := scanBullets resume_text
  (((bullet_like.take 60).filter bulletFlag).map
    (fun b => (String.mk (pyStrip b), REWRITE_TIP))).take 20

/-! ### Claim-stated and amended readings, for comparison with the code -/

/-- Number of distinct non-zero canonical sections after pass 1 (the quantity
named by the fallback-trigger claim). -/
def pass1NonzeroCount (text : String) : Nat :=
  ((pass1Canonical text).filter (fun p => ¬ p.2 = 0)).length

/-- Combined weight of the canonical-section subtotal after pass 1. -/
def pass1Weight (text : String) : Nat :=
  ((pass1Canonical text).map (fun p => p.2)).sum

/-- ATS score as the claim states it: round-to-nearest-integer of
`60 × coverage + 40 × min(1, |detected_sections| / 6)`, clamped to [0, 100],
with coverage `1 − |missing| / max(1, |role keywords|)`. -/
def claimAtsScoreAsStated (resume_text : String)
    (role_keywords : Finset String) : ℤ :=
  let missingCount := (role_keywords.filter
    (fun k => ¬ k ∈ (simple_tokenize resume_text).toFinset)).card
  let coverage : ℚ :=
    1 - (missingCount : ℚ) / ((max 1 role_keywords.card : Nat) : ℚ)
  let n := (detect_sections resume_text).length
  max 0 (min 100 (round (60 * coverage + 40 * min 1 ((n : ℚ) / 6))))

/-- ATS score under the amended claim: identical to the claim-stated formula
except that the real value is truncated (floored — it is nonnegative) rather
than rounded to nearest. -/
def amendedAtsScore (resume_text : String)
    (role_keywords : Finset String) : ℤ :=
  let missingCount := (role_keywords.filter
    (fun k => ¬ k ∈ (simple_tokenize resume_text).toFinset)).card
  let coverage : ℚ :=
    1 - (missingCount : ℚ) / ((max 1 role_keywords.card : Nat) : ℚ)
  let n := (detect_sections resume_text).length
  max 0 (min 100 ⌊60 * coverage + 40 * min 1 ((n : ℚ) / 6)⌋)

/-- Recruiter scan as the claim states it: the selection is the first 20
non-blank lines of the whole document, and the ignored-placeholder condition
is on the document's total number of non-blank lines. -/
def claimRecruiterScanAsStated (resume_text : String) : String × String :=
  let nonblank := ((pySplitlines resume_text.data).filter
    (fun l => ¬ (pyStrip l).isEmpty)).map pyStrip
  let sel := nonblank.take 20
  let highlights := joinNL (sel.take 8)
  let ignored :=
    if 8 < nonblank.length then joinNL (sel.drop 8)
    else "Short resume header; focus on punchy summary."
  (if highlights = "" then "No immediate highlights detected." else highlights,
   ignored)

/-- Recruiter scan under the amended claim: select the non-blank lines among
the first 20 lines of the document (a line is blank when it has no
non-whitespace character), stripped; highlights are the first 8 selected
lines joined (placeholder when the selection is empty) and ignored is the
rest joined (placeholder when the selection has 8 or fewer lines). -/
def amendedRecruiterScan (resume_text : String) : String × String :=
  let sel := (((pySplitlines resume_text.data).take 20).filter
    (fun l => l.any (fun c => ¬ isPySpace c))).map pyStrip
  let highlights :=
    if sel.isEmpty then "No immediate highlights detected."
    else joinNL (sel.take 8)
  let ignored :=
    if sel.length ≤ 8 then "Short resume header; focus on punchy summary."
    else joinNL (sel.drop 8)
  (highlights, ignored)

/-- Bullet item of a single line as the claim states it: after optional
leading whitespace, a bullet glyph, then whitespace and content (the content
being the remainder of the line). -/
def claimLineBullet (l : List Char) : Option (List Char) :=
  match l.dropWhile isPySpace with
  | [] => none
  | c :: rest =>
    if isGlyph c && ¬ (rest.takeWhile isPySpace).isEmpty
        && ¬ (rest.dropWhile isPySpace).isEmpty then
      some (rest.dropWhile isPySpace)
    else none

/-- Achievement suggestions as the claim states the extraction: bullet-like
lines may carry optional leading whitespace before the glyph. -/
def claimSuggestionsAsStated (text : String) : List (String × String) :=
  ((((pySplitlines text.data).filterMap claimLineBullet).take 60).filter
    bulletFlag).map (fun b => (String.mk (pyStrip b), REWRITE_TIP)) |>.take 20

/-- Achievement suggestions under the amended claim: bullets are anchored at
the start of the text or immediately after a newline with no leading
whitespace; the capture is the remainder of the line holding the first
non-whitespace character after the glyph's whitespace separator (which may
span line breaks). -/
def amendedSuggestions (text : String) : List (String × String) :=
  (((specScanBullets text).take 60).filter bulletFlag).map
    (fun b => (String.mk (pyStrip b), REWRITE_TIP)) |>.take 20

/-- Whether some role preset key occurs in the lowered role label. -/
def presetMatch (job_role : String) : Bool :=
  ROLE_PRESETS.any (fun p => containsSub p.1.data (job_role.data.map pyLower))

/-! ### Checked variants, making every fallible Python operation explicit

The only operations in the eight core functions that can raise on well-typed
string inputs are divisions (`ZeroDivisionError`); list slicing, `dict` /
`Counter` access with defaults, regex search, `join`, `strip` and `sorted`
are total. The checked variants below guard every division of the source and
return `none` if any divisor were zero. -/

/-- Guarded integer floor division (Python `//`). -/
def pyIntDivChk (a b : Nat) : Option Nat :=
  if b = 0 then none else some (a / b)

/-- Guarded true division (Python `/` on numbers, modelled on ℚ). -/
def pyDivChk (a b : ℚ) : Option ℚ :=
  if b = 0 then none else some (a / b)

/-- Checked pass 1 of the section detector (`len(line) // 60` guarded). -/
def detectPass1Chk (lines : List (List Char)) :
    Option (List (String × Nat)) := do
  let st ← lines.foldlM
    (fun (st : String × List (String × Nat)) line => do
      let q ← pyIntDivChk line.length 60
      let lower := line.map pyLower
      let isHeading := line.length ≤ 120
      let matched := SECTION_ALIASES.find? (fun p => hasWBMatch p.1.data lower)
      let current :=
        match matched with
        | some p => if isHeading then p.2 else st.1
        | none => st.1
      pure (current, bump st.2 current (max 1 q)))
    ("summary", [])
  pure st.2

/-- Checked pass 2 of the section detector (`fallback[k] // 2` guarded). -/
def detectFallbackChk (text : String) : Option (List (String × Nat)) := do
  let tokens := simple_tokenize text
  let base := sectionHeuristics.map
    (fun p => (p.1, (p.2.map (fun k => tokens.count k)).sum))
  let normed ← base.mapM
    (fun p =>
      if 0 < p.2 then do
        let h ← pyIntDivChk p.2 2
        pure (p.1, max 1 h)
      else pure p)
  pure (normed.filter (fun p => 0 < p.2))

/-- Checked section detector. -/
def detect_sectionsChk (text : String) : Option (List (String × Nat)) := do
  let p1 ← detectPass1Chk (detectLines text)
  let non_other := p1.filter (fun p => p.1 ∈ CANONICAL_SECTIONS)
  if non_other.isEmpty ∨ (non_other.map (fun p => p.2)).sum < 3 then
    detectFallbackChk text
  else pure non_other

/-- Checked ATS scorer (both float divisions guarded). -/
def compute_ats_scoreChk (resume_text : String)
    (role_keywords : Finset String) : Option AtsResult := do
  let missing := atsMissing resume_text role_keywords
  let q ← pyDivChk (missing.length : ℚ)
    ((max 1 role_keywords.card : Nat) : ℚ)
  let coverage := 1 - q
  let section_info ← detect_sectionsChk resume_text
  let frac ← pyDivChk (section_info.length : ℚ) 6
  pure { score := max 0 (min 100 (pytrunc (60 * coverage + 40 * min 1 frac)))
         missing_keywords := missing.take 100
         detected_sections := section_info }

/-- Checked visual-insights analyzer (both float divisions guarded). -/
def analyze_visual_insightsChk (resume_text : String)
    (role_keywords : Finset String) : Option VisualResult := do
  let tokens := simple_tokenize resume_text
  let keyword_counts := ((role_keywords.sort (· ≤ ·)).take 25).map
    (fun k => (k, tokens.count k))
  let sections ← detect_sectionsChk resume_text
  let words := tokens.length
  let sentences := max 1
    (resume_text.data.count '.' + resume_text.data.count '!' +
      resume_text.data.count '?')
  let avg ← pyDivChk (words : ℚ) (sentences : ℚ)
  let rt ← pyDivChk (words : ℚ) 200
  pure { keyword_density := keyword_counts
         section_balance := sections
         avg_sentence_length := round2 avg
         word_count := words
         estimated_read_time_min := round2 rt }

/-- Checked tokenizer: the source performs no fallible operation. -/
def simple_tokenizeChk (text : String) : Option (List String) :=
  some (simple_tokenize text)

/-- Checked resolver: the source performs no fallible operation. -/
def role_keywords_forChk (job_role job_desc resume_text : String) :
    Option (Finset String) :=
  some (role_keywords_for job_role job_desc resume_text)

/-- Checked categorizer: the source performs no fallible operation. -/
def categorize_keywordsChk (job_role : String) (keywords : Finset String) :
    Option (List (String × List String)) :=
  some (categorize_keywords job_role keywords)

/-- Checked recruiter scan: the source performs no fallible operation. -/
def analyze_recruiter_scanChk (resume_text : String) :
    Option (String × String) :=
  some (analyze_recruiter_scan resume_text)

/-- Checked achievement flagger: the source performs no fallible operation. -/
def suggest_quantified_achievementsChk (resume_text : String) :
    Option (List (String × String)) :=
  some (suggest_quantified_achievements resume_text)

/-! ### Concrete inputs used by counterexamples and the worked example -/

/-- Worked example résumé of the spec. -/
def exampleResume : String :=
  "John Doe\nSummary\nExperienced engineer.\nExperience\n- responsible for managing a team of five people"

/-- Résumé containing 13 distinct tokens and nothing the section heuristics
recognise. -/
def c1Resume : String :=
  "aa ab ac ad ae af ag ah ai aj ak al am"

/-- Sixteen role keywords of which exactly three are missing from
`c1Resume`, giving coverage 13/16 and raw score 48.75. -/
def c1Keywords : Finset String :=
  (["aa", "ab", "ac", "ad", "ae", "af", "ag", "ah", "ai", "aj", "ak", "al",
    "am", "xx", "yy", "zz"] : List String).toFinset

/-- Text whose pass 1 finds exactly one canonical section of weight 3. -/
def c2Text : String :=
  "alpha beta gamma\ndelta epsilon\nzeta eta"

/-- Document whose first 20 lines are blank and whose only non-blank line is
the 21st. -/
def c4Text : String :=
  "\n\n\n\n\n\n\n\n\n\n\n\n\n\n\n\n\n\n\n\nhello"

/-- Single bullet line carrying leading whitespace before the glyph. -/
def c5Text : String :=
  "  - responsible for managing a team"

/-! ## Lemmas about the fuelled workers -/

theorem pySplitF_irrel (f1 : Nat) :
    ∀ (f2 : Nat) (l : List Char), l.length < f1 → l.length < f2 →
      pySplitF f1 l = pySplitF f2 l := by
  induction f1 with
  | zero => intro f2 l h1 _; omega
  | succ n ih =>
    intro f2 l h1 h2
    match f2, l with
    | m + 1, [] => rfl
    | m + 1, c :: cs =>
      show (if isPySpace c then pySplitF n cs else _) =
        (if isPySpace c then pySplitF m cs else _)
      by_cases hc : isPySpace c
      · rw [if_pos hc, if_pos hc]
        exact ih m cs (by simpa using h1) (by simpa using h2)
      · rw [if_neg hc, if_neg hc]
        have hd : (cs.dropWhile (fun d => ¬ isPySpace d)).length ≤ cs.length :=
          (List.dropWhile_suffix _).length_le
        have h1' : (cs.dropWhile (fun d => ¬ isPySpace d)).length < n := by
          simp only [List.length_cons] at h1; omega
        have h2' : (cs.dropWhile (fun d => ¬ isPySpace d)).length < m := by
          simp only [List.length_cons] at h2; omega
        rw [ih m _ h1' h2']

theorem pySplit_cons (c : Char) (cs : List Char) :
    pySplit (c :: cs) =
      if isPySpace c then pySplit cs
      else (c :: cs.takeWhile (fun d => ¬ isPySpace d)) ::
        pySplit (cs.dropWhile (fun d => ¬ isPySpace d)) := by
  show (if isPySpace c then pySplitF (cs.length + 1) cs else
      (c :: cs.takeWhile (fun d => ¬ isPySpace d)) ::
        pySplitF (cs.length + 1) (cs.dropWhile (fun d => ¬ isPySpace d))) = _
  by_cases hc : isPySpace c
  · rw [if_pos hc, if_pos hc]; rfl
  · rw [if_neg hc, if_neg hc]
    have hd : (cs.dropWhile (fun d => ¬ isPySpace d)).length ≤ cs.length :=
      (List.dropWhile_suffix _).length_le
    rw [pySplitF_irrel (cs.length + 1)
      ((cs.dropWhile (fun d => ¬ isPySpace d)).length + 1) _
      (by omega) (by omega)]
    rfl

theorem firstUniquesF_irrel (f1 : Nat) :
    ∀ (f2 : Nat) (l : List String), l.length < f1 → l.length < f2 →
      firstUniquesF f1 l = firstUniquesF f2 l := by
  induction f1 with
  | zero => intro f2 l h1 _; omega
  | succ n ih =>
    intro f2 l h1 h2
    match f2, l with
    | m + 1, [] => rfl
    | m + 1, a :: l' =>
      simp only [firstUniquesF, List.cons.injEq, true_and]
      have hf : (l'.filter (fun b => ¬ b = a)).length ≤ l'.length :=
        (List.filter_sublist _).length_le
      exact ih m _ (by simp only [List.length_cons] at h1; omega)
        (by simp only [List.length_cons] at h2; omega)

theorem firstUniques_cons (a : String) (l : List String) :
    firstUniques (a :: l) = a :: firstUniques (l.filter (fun b => ¬ b = a)) := by
  show firstUniquesF (l.length + 1 + 1) (a :: l) = _
  simp only [firstUniquesF, firstUniques, List.cons.injEq, true_and]
  have hf : (l.filter (fun b => ¬ b = a)).length ≤ l.length :=
    (List.filter_sublist _).length_le
  exact firstUniquesF_irrel _ _ _ (by omega) (by omega)

/-! ## Lemmas about whitespace splitting and stripping -/

theorem pySplitF_allspace (fuel : Nat) :
    ∀ l : List Char, (∀ c ∈ l, isPySpace c) → pySplitF fuel l = [] := by
  induction fuel with
  | zero => intro l _; rfl
  | succ n ih =>
    intro l h
    match l with
    | [] => rfl
    | c :: cs =>
      have hc : isPySpace c := h c (by simp)
      simp only [pySplitF, hc, if_true]
      exact ih cs (fun d hd => h d (by simp [hd]))

theorem pySplit_allspace (l : List Char) (h : ∀ c ∈ l, isPySpace c) :
    pySplit l = [] :=
  pySplitF_allspace _ l h

theorem pySplit_lstrip (l : List Char) :
    pySplit (l.dropWhile isPySpace) = pySplit l := by
  induction l with
  | nil => rfl
  | cons c cs ih =>
    by_cases hc : isPySpace c
    · rw [List.dropWhile_cons_of_pos (by simpa using hc), pySplit_cons,
        if_pos hc]
      exact ih
    · rw [List.dropWhile_cons_of_neg (by simpa using hc)]

theorem pySplit_append_space (w : List Char) (hw : ∀ c ∈ w, isPySpace c) :
    ∀ l : List Char, pySplit (l ++ w) = pySplit l := by
  have key : ∀ (n : Nat) (l : List Char), l.length ≤ n →
      pySplit (l ++ w) = pySplit l := by
    intro n
    induction n with
    | zero =>
      intro l h
      cases l with
      | nil => simpa using pySplit_allspace w hw
      | cons c cs => simp at h
    | succ n ih =>
      intro l h
      cases l with
      | nil => simpa using pySplit_allspace w hw
      | cons c cs =>
        rw [List.cons_append, pySplit_cons, pySplit_cons]
        by_cases hc : isPySpace c
        · rw [if_pos hc, if_pos hc]
          exact ih cs (by simp only [List.length_cons] at h; omega)
        · rw [if_neg hc, if_neg hc]
          by_cases hcs : ∀ d ∈ cs, isPySpace d = false
          · -- no whitespace inside `cs`: the appended run is consumed whole
            have ht : cs.takeWhile (fun d => ¬ isPySpace d) = cs :=
              List.takeWhile_eq_self_iff.mpr (by
                intro d hd; simp [hcs d hd])
            have hd : (cs.dropWhile (fun d => ¬ isPySpace d)).isEmpty := by
              rw [List.isEmpty_iff, List.dropWhile_eq_nil_iff]
              intro d hd; simp [hcs d hd]
            have hwt : w.takeWhile (fun d => ¬ isPySpace d) = [] := by
              cases w with
              | nil => rfl
              | cons a as =>
                rw [List.takeWhile_cons_of_neg]
                simp [hw a (by simp)]
            have hwd : w.dropWhile (fun d => ¬ isPySpace d) = w := by
              cases w with
              | nil => rfl
              | cons a as =>
                rw [List.dropWhile_cons_of_neg]
                simp [hw a (by simp)]
            have htw : (cs ++ w).takeWhile (fun d => ¬ isPySpace d) = cs := by
              rw [List.takeWhile_append, if_pos (by rw [ht]), hwt,
                List.append_nil]
            have hdw : (cs ++ w).dropWhile (fun d => ¬ isPySpace d) = w := by
              rw [List.dropWhile_append, if_pos hd, hwd]
            rw [htw, hdw, ht, List.isEmpty_iff.mp hd,
              pySplit_allspace w hw]
            rfl
          · -- `cs` contains whitespace: take/drop stay inside `cs`
            push_neg at hcs
            obtain ⟨d, hdmem, hdws⟩ := hcs
            have hdws' : isPySpace d := by
              cases hb : isPySpace d with
              | false => exact absurd hb hdws
              | true => rfl
            have hne : ¬ (cs.dropWhile (fun e => ¬ isPySpace e)).isEmpty := by
              rw [List.isEmpty_iff, List.dropWhile_eq_nil_iff]
              push_neg
              exact ⟨d, hdmem, by simp [hdws']⟩
            have hlt : (cs.takeWhile (fun e => ¬ isPySpace e)).length ≠
                cs.length := by
              intro hlen
              have heq : cs.takeWhile (fun e => ¬ isPySpace e) = cs :=
                (List.takeWhile_sublist _).eq_of_length hlen
              have hmem : d ∈ cs.takeWhile (fun e => ¬ isPySpace e) := by
                rw [heq]; exact hdmem
              have := List.mem_takeWhile_imp hmem
              simp [hdws'] at this
            have htw : (cs ++ w).takeWhile (fun e => ¬ isPySpace e) =
                cs.takeWhile (fun e => ¬ isPySpace e) := by
              rw [List.takeWhile_append, if_neg hlt]
            have hdw : (cs ++ w).dropWhile (fun e => ¬ isPySpace e) =
                cs.dropWhile (fun e => ¬ isPySpace e) ++ w := by
              rw [List.dropWhile_append, if_neg hne]
            rw [htw, hdw]
            have hlen : (cs.dropWhile (fun e => ¬ isPySpace e)).length ≤ n := by
              have := (List.dropWhile_suffix
                (l := cs) (fun e => ¬ isPySpace e)).length_le
              simp only [List.length_cons] at h; omega
            rw [ih _ hlen]
  intro l
  exact key l.length l le_rfl

theorem pyRstrip_decomp (l : List Char) :
    ∃ w, l = pyRstrip l ++ w ∧ ∀ c ∈ w, isPySpace c := by
  refine ⟨(l.reverse.takeWhile isPySpace).reverse, ?_, ?_⟩
  · conv_lhs => rw [← l.reverse_reverse]
    rw [pyRstrip, ← List.reverse_append, List.takeWhile_append_dropWhile]
  · intro c hc
    rw [List.mem_reverse] at hc
    exact List.mem_takeWhile_imp hc

theorem pySplit_rstrip (l : List Char) :
    pySplit (pyRstrip l) = pySplit l := by
  obtain ⟨w, hw, hws⟩ := pyRstrip_decomp l
  conv_rhs => rw [hw]
  rw [pySplit_append_space w hws]

theorem pySplit_strip (l : List Char) :
    pySplit (pyStrip l) = pySplit l := by
  rw [pyStrip, pyLstrip, pySplit_rstrip, pySplit_lstrip]

theorem pyStrip_eq_nil_iff (l : List Char) :
    pyStrip l = [] ↔ ∀ c ∈ l, isPySpace c := by
  rw [pyStrip, pyRstrip, pyLstrip]
  rw [List.reverse_eq_nil_iff, List.dropWhile_eq_nil_iff]
  constructor
  · intro h c hc
    by_cases hmem : c ∈ l.dropWhile isPySpace
    · exact h c (by simpa using hmem)
    · -- `c` sits in the stripped whitespace prefix
      have hsplit := List.takeWhile_append_dropWhile (p := isPySpace) (l := l)
      rw [← hsplit] at hc
      rcases List.mem_append.mp hc with h1 | h2
      · exact List.mem_takeWhile_imp h1
      · exact absurd h2 hmem
  · intro h c hc
    rw [List.mem_reverse] at hc
    exact h c ((List.dropWhile_suffix isPySpace).sublist.subset hc)

/-! ## Lemmas about the section-weight association list -/

theorem bump_pos {m : List (String × Nat)} {key : String} {w : Nat}
    (hm : ∀ p ∈ m, 1 ≤ p.2) (hw : 1 ≤ w) :
    ∀ p ∈ bump m key w, 1 ≤ p.2 := by
  induction m with
  | nil =>
    intro p hp
    simp only [bump, List.mem_singleton] at hp
    simp [hp, hw]
  | cons q rest ih =>
    intro p hp
    rw [bump] at hp
    by_cases hk : q.1 = key
    · rw [if_pos hk] at hp
      rcases List.mem_cons.mp hp with h | h
      · have := hm q (by simp)
        simp [h]; omega
      · exact hm p (by simp [h])
    · rw [if_neg hk] at hp
      rcases List.mem_cons.mp hp with h | h
      · exact h ▸ hm q (by simp)
      · exact ih (fun r hr => hm r (by simp [hr])) p h

theorem detectPass1_pos (lines : List (List Char)) :
    ∀ p ∈ detectPass1 lines, 1 ≤ p.2 := by
  suffices key : ∀ (st : String × List (String × Nat)),
      (∀ p ∈ st.2, 1 ≤ p.2) →
      ∀ p ∈ (lines.foldl
        (fun (st : String × List (String × Nat)) line =>
          let lower := line.map pyLower
          let isHeading := line.length ≤ 120
          let matched :=
            SECTION_ALIASES.find? (fun p => hasWBMatch p.1.data lower)
          let current :=
            match matched with
            | some p => if isHeading then p.2 else st.1
            | none => st.1
          (current, bump st.2 current (max 1 (line.length / 60)))) st).2,
        1 ≤ p.2 by
    exact key ("summary", []) (by simp)
  induction lines with
  | nil => intro st h; exact h
  | cons line rest ih =>
    intro st h
    rw [List.foldl_cons]
    exact ih _ (bump_pos h (le_max_left _ _))

theorem pass1Canonical_pos (text : String) :
    ∀ p ∈ pass1Canonical text, 1 ≤ p.2 := by
  intro p hp
  exact detectPass1_pos _ p (List.mem_of_mem_filter hp)

theorem detect_sections_pos (text : String) :
    ∀ p ∈ detect_sections text, 1 ≤ p.2 := by
  intro p hp
  rw [detect_sections] at hp
  by_cases hcond : (pass1Canonical text).isEmpty = true ∨
      ((pass1Canonical text).map (fun p => p.2)).sum < 3
  · rw [if_pos hcond] at hp
    have := List.of_mem_filter hp
    simpa using this
  · rw [if_neg hcond] at hp
    exact pass1Canonical_pos text p hp

theorem pass1Canonical_filter_nonzero (text : String) :
    (pass1Canonical text).filter (fun p => ¬ p.2 = 0) = pass1Canonical text := by
  rw [List.filter_eq_self]
  intro p hp
  have := pass1Canonical_pos text p hp
  simp; omega

/-! ## Lemmas about `mostCommonKeys` -/

theorem insertByCnt_ne_nil (cnt : String → Nat) (acc : List String)
    (x : String) : insertByCnt cnt acc x ≠ [] := by
  cases acc with
  | nil => simp [insertByCnt]
  | cons y ys =>
    rw [insertByCnt]
    by_cases h : cnt x ≤ cnt y
    · simp [if_pos h]
    · simp [if_neg h]

theorem foldl_insertByCnt_ne_nil (cnt : String → Nat) :
    ∀ (l : List String) (acc : List String), acc ≠ [] →
      l.foldl (insertByCnt cnt) acc ≠ [] := by
  intro l
  induction l with
  | nil => intro acc h; exact h
  | cons a l' ih =>
    intro acc _
    rw [List.foldl_cons]
    exact ih _ (insertByCnt_ne_nil cnt acc a)

theorem mostCommonKeys_eq_nil_iff (l : List String) (n : Nat) (hn : 0 < n) :
    mostCommonKeys l n = [] ↔ l = [] := by
  constructor
  · intro h
    by_contra hne
    match l, hne with
    | a :: l', _ =>
      rw [mostCommonKeys, firstUniques_cons, List.foldl_cons] at h
      rcases List.take_eq_nil_iff.mp h with h0 | h0
      · omega
      · exact foldl_insertByCnt_ne_nil _ _ _
          (insertByCnt_ne_nil _ [] a) h0
  · intro h
    simp [h, mostCommonKeys, firstUniques, firstUniquesF]

/-! ## Lemmas about `joinNL` -/

theorem joinNL_eq_empty_iff (ls : List (List Char))
    (h : ∀ l ∈ ls, l ≠ []) : joinNL ls = "" ↔ ls = [] := by
  constructor
  · intro he
    match ls with
    | [] => rfl
    | [l] =>
      exfalso
      apply h l (by simp)
      have : String.mk l = String.mk [] := he
      simpa using congrArg String.data this
    | l :: l2 :: rest =>
      exfalso
      have : String.mk (l ++ '\n' :: joinNLChars (l2 :: rest)) =
        String.mk [] := he
      have hdata := congrArg String.data this
      simp at hdata
  · intro h; simp [h, joinNL, joinNLChars]

/-! ## A sorted list is recovered by `Finset.sort` of its `toFinset` -/

theorem toFinset_sort_eq (L : List String) (hL : L.Sorted (· < ·)) :
    L.toFinset.sort (· ≤ ·) = L := by
  have hnd : L.Nodup := hL.nodup
  apply List.eq_of_perm_of_sorted (r := (· ≤ ·))
  · exact (Finset.sort_perm_toList _ _).trans
      ((List.toFinset_toList hnd).trans (by rfl))
  · exact Finset.sort_sorted _ _
  · exact hL.le_of_lt

/-! ## Lowering commutes with whitespace stripping -/

theorem toNat_ofNat_valid (n : Nat) (h : n < 0xd800) :
    (Char.ofNat n).toNat = n := by
  unfold Char.ofNat
  rw [dif_pos (Or.inl h)]
  rfl

theorem isPySpace_pyLower (c : Char) :
    isPySpace (pyLower c) = isPySpace c := by
  unfold pyLower
  split
  · rename_i h
    have h32 : (Char.ofNat (c.toNat + 32)).toNat = c.toNat + 32 :=
      toNat_ofNat_valid _ (by omega)
    have hL : isPySpace (Char.ofNat (c.toNat + 32)) = false := by
      simp only [isPySpace, h32, Bool.or_eq_false_iff, Bool.and_eq_false_iff,
        decide_eq_false_iff_not, decide_eq_true_eq]
      omega
    have hR : isPySpace c = false := by
      simp only [isPySpace, Bool.or_eq_false_iff, Bool.and_eq_false_iff,
        decide_eq_false_iff_not, decide_eq_true_eq]
      omega
    rw [hL, hR]
  · rfl

theorem dropWhile_isPySpace_map_pyLower (l : List Char) :
    (l.map pyLower).dropWhile isPySpace =
      (l.dropWhile isPySpace).map pyLower := by
  rw [List.dropWhile_map]
  have h : (isPySpace ∘ pyLower) = isPySpace := funext isPySpace_pyLower
  rw [h]

theorem pyStrip_map_pyLower (l : List Char) :
    pyStrip (l.map pyLower) = (pyStrip l).map pyLower := by
  rw [pyStrip, pyStrip, pyLstrip, pyLstrip, pyRstrip, pyRstrip,
    dropWhile_isPySpace_map_pyLower, ← List.map_reverse,
    dropWhile_isPySpace_map_pyLower, ← List.map_reverse]

/-! ## Substring occurrences survive stripping -/

theorem infix_append_swap {p l : List Char} (h : p <:+: l) :
    p.reverse <:+: l.reverse := by
  obtain ⟨s, t, rfl⟩ := h
  refine ⟨t.reverse, s.reverse, ?_⟩
  simp

theorem infix_dropWhile_of_head {p0 : Char} {ps l : List Char}
    (hp : ¬ isPySpace p0 = true) (h : (p0 :: ps) <:+: l) :
    (p0 :: ps) <:+: l.dropWhile isPySpace := by
  induction l with
  | nil =>
    exfalso
    have := h.length_le
    simp at this
  | cons c cs ih =>
    by_cases hc : isPySpace c
    · rw [List.dropWhile_cons_of_pos hc]
      rcases List.infix_cons_iff.mp h with hpre | hinf
      · exfalso
        have := List.cons_prefix_cons.mp hpre
        exact hp (this.1 ▸ hc)
      · exact ih hinf
    · rwa [List.dropWhile_cons_of_neg hc]

theorem infix_pyStrip {p l : List Char} (hne : p ≠ [])
    (hhead : ¬ isPySpace (p.headI) = true)
    (hlast : ¬ isPySpace (p.getLastI) = true)
    (h : p <:+: l) : p <:+: pyStrip l := by
  match p, hne with
  | p0 :: ps, _ =>
    have h1 : (p0 :: ps) <:+: pyLstrip l := by
      rw [pyLstrip]
      exact infix_dropWhile_of_head (by simpa using hhead) h
    rw [pyStrip, pyRstrip]
    have h2 : ((p0 :: ps).reverse) <:+: (pyLstrip l).reverse :=
      infix_append_swap h1
    have hrev : (p0 :: ps).reverse ≠ [] := by simp
    match hrh : (p0 :: ps).reverse, hrev with
    | q0 :: qs, _ =>
      have hq0 : q0 = (p0 :: ps).getLastI := by
        have hg : (p0 :: ps).getLast? = some q0 := by
          rw [← List.head?_reverse, hrh]; rfl
        rw [List.getLastI_eq_getLast?, hg]
      have h3 : (q0 :: qs) <:+:
          ((pyLstrip l).reverse).dropWhile isPySpace := by
        apply infix_dropWhile_of_head
        · rw [hq0]
          simpa using hlast
        · rw [← hrh]; exact h2
      have h4 := infix_append_swap h3
      rw [← hrh] at h4
      simpa using h4

/-! ## Lemmas about the bullet scanner -/

theorem isGlyph_of_isPySpace {c : Char} (h : isPySpace c = true) :
    isGlyph c = false := by
  cases hg : isGlyph c with
  | false => rfl
  | true =>
    exfalso
    have hcs : (c = '-' ∨ c = '•') ∨ c = '*' := by
      simpa [isGlyph, or_assoc] using hg
    rcases hcs with (rfl | rfl) | rfl <;> exact absurd h (by decide)

theorem ne_newline_of_isGlyph {c : Char} (h : isGlyph c = true) :
    ¬ c = '\n' := by
  intro heq
  rw [heq] at h
  exact absurd h (by decide)

theorem dropWhile_head_false {α : Type} {p : α → Bool} {l : List α} {c : α}
    {r : List α} (h : l.dropWhile p = c :: r) : p c = false := by
  induction l with
  | nil => simp at h
  | cons a as ih =>
    by_cases ha : p a
    · rw [List.dropWhile_cons_of_pos ha] at h
      exact ih h
    · rw [List.dropWhile_cons_of_neg ha] at h
      cases h
      simpa using ha

theorem genScanF_cons (fc : List Char → Option (List Char × List Char))
    (fuel : Nat) (c : Char) (cs : List Char) (b : Bool) :
    genScanF fc (fuel + 1) (c :: cs) b =
      match scanAttempt fc c cs b with
      | some (cap, rest) => cap :: genScanF fc fuel rest false
      | none => genScanF fc fuel cs false := rfl

theorem scanAttempt_eq (fc : List Char → Option (List Char × List Char))
    (c : Char) (cs : List Char) (b : Bool) :
    scanAttempt fc c cs b =
      if b && isGlyph c then fc cs
      else if c = '\n' then
        (match cs with
         | g :: cs2 => if isGlyph g then fc cs2 else none
         | [] => none)
      else none := rfl

theorem scanAttempt_pos (fc : List Char → Option (List Char × List Char))
    (c : Char) (cs : List Char) (b : Bool) (hb : (b && isGlyph c) = true) :
    scanAttempt fc c cs b = fc cs := by
  rw [scanAttempt_eq, if_pos hb]

theorem scanAttempt_nl_nil (fc : List Char → Option (List Char × List Char))
    (c : Char) (b : Bool) (hb : ¬ (b && isGlyph c) = true) (hc : c = '\n') :
    scanAttempt fc c [] b = none := by
  rw [scanAttempt_eq, if_neg hb, if_pos hc]

theorem scanAttempt_nl_cons (fc : List Char → Option (List Char × List Char))
    {c : Char} (g : Char) (cs2 : List Char) (b : Bool)
    (hb : ¬ (b && isGlyph c) = true) (hc : c = '\n') :
    scanAttempt fc c (g :: cs2) b = if isGlyph g then fc cs2 else none := by
  rw [scanAttempt_eq, if_neg hb, if_pos hc]

theorem scanAttempt_none (fc : List Char → Option (List Char × List Char))
    (c : Char) (cs : List Char) (b : Bool)
    (hb : ¬ (b && isGlyph c) = true) (hc : ¬ c = '\n') :
    scanAttempt fc c cs b = none := by
  rw [scanAttempt_eq, if_neg hb, if_neg hc]

theorem genScanF_allspace (fc : List Char → Option (List Char × List Char))
    (fuel : Nat) :
    ∀ l : List Char, (∀ c ∈ l, isPySpace c = true) →
      genScanF fc fuel l false = [] := by
  induction fuel with
  | zero => intro l _; rfl
  | succ n ih =>
    intro l h
    match l with
    | [] => rfl
    | c :: cs =>
      have hb : ¬ ((false && isGlyph c) = true) := by simp
      have hatt : scanAttempt fc c cs false = none := by
        by_cases hc : c = '\n'
        · match cs with
          | [] => exact scanAttempt_nl_nil fc c false hb hc
          | g :: cs2 =>
            rw [scanAttempt_nl_cons fc g cs2 false hb hc]
            have hgf : ¬ isGlyph g = true := by
              rw [isGlyph_of_isPySpace (h g (by simp))]
              simp
            rw [if_neg hgf]
        · exact scanAttempt_none fc c cs false hb hc
      rw [genScanF_cons, hatt]
      exact ih cs (fun d hd => h d (by simp [hd]))

theorem genScanF_glyph_allspace
    (fc : List Char → Option (List Char × List Char)) (n : Nat) {g : Char}
    (hg : isGlyph g = true) (cs2 : List Char)
    (hws : ∀ c ∈ cs2, isPySpace c = true) :
    genScanF fc n (g :: cs2) false = [] := by
  match n with
  | 0 => rfl
  | n' + 1 =>
    have hatt : scanAttempt fc g cs2 false = none :=
      scanAttempt_none fc g cs2 false (by simp) (ne_newline_of_isGlyph hg)
    rw [genScanF_cons, hatt]
    exact genScanF_allspace fc n' cs2 hws

theorem findCapture_rel (l : List Char) :
    findCapture l = specFindCapture l ∨
    (specFindCapture l = none ∧ (∀ c ∈ l, isPySpace c = true) ∧
      (findCapture l = none ∨
        ∃ c rest, findCapture l = some ([c], rest) ∧ isPySpace c = true ∧
          ¬ c = '\n' ∧ ∀ x ∈ rest, isPySpace x = true)) := by
  simp only [findCapture, specFindCapture]
  by_cases hw : (l.takeWhile isPySpace).isEmpty
  · left
    rw [if_pos hw, if_pos hw]
  · by_cases hr : (l.dropWhile isPySpace).isEmpty
    · right
      rw [if_neg hw, if_neg hw, if_pos hr, if_pos hr]
      have hall : ∀ c ∈ l, isPySpace c = true :=
        List.dropWhile_eq_nil_iff.mp (List.isEmpty_iff.mp hr)
      refine ⟨rfl, hall, ?_⟩
      cases hm : (((l.takeWhile isPySpace).drop 1).reverse).dropWhile
          (fun c => c = '\n') with
      | nil =>
        left
        rfl
      | cons c rest' =>
        right
        refine ⟨c,
          ((((l.takeWhile isPySpace).drop 1).reverse).takeWhile
            (fun c => c = '\n')).reverse, rfl, ?_, ?_, ?_⟩
        · -- the captured character is from the whitespace run
          have hsub : ((((l.takeWhile isPySpace).drop 1).reverse).dropWhile
              (fun c => c = '\n')) <:+
              (((l.takeWhile isPySpace).drop 1).reverse) :=
            List.dropWhile_suffix _
          have hc1 : c ∈ (((l.takeWhile isPySpace).drop 1).reverse) := by
            apply hsub.sublist.subset
            rw [hm]
            simp
          rw [List.mem_reverse] at hc1
          have hc2 : c ∈ l.takeWhile isPySpace :=
            (List.drop_sublist _ _).subset hc1
          exact List.mem_takeWhile_imp hc2
        · have := dropWhile_head_false hm
          simpa using this
        · intro x hx
          rw [List.mem_reverse] at hx
          have hx1 := List.mem_takeWhile_imp hx
          have hx2 : x = '\n' := by simpa using hx1
          rw [hx2]
          decide
    · left
      rw [if_neg hw, if_neg hw, if_neg hr, if_neg hr]

theorem scanMatch_helper (n : Nat)
    (ih : ∀ (l : List Char) (b : Bool),
      genScanF findCapture n l b = genScanF specFindCapture n l b ∨
      ∃ c, isPySpace c = true ∧ ¬ c = '\n' ∧
        genScanF findCapture n l b =
          genScanF specFindCapture n l b ++ [[c]])
    (x cs : List Char)
    (hfall : ∀ fc, (∀ c ∈ x, isPySpace c = true) →
      genScanF fc n cs false = []) :
    (match findCapture x with
     | some (cap, rest) => cap :: genScanF findCapture n rest false
     | none => genScanF findCapture n cs false) =
    (match specFindCapture x with
     | some (cap, rest) => cap :: genScanF specFindCapture n rest false
     | none => genScanF specFindCapture n cs false) ∨
    ∃ c, isPySpace c = true ∧ ¬ c = '\n' ∧
      (match findCapture x with
       | some (cap, rest) => cap :: genScanF findCapture n rest false
       | none => genScanF findCapture n cs false) =
      (match specFindCapture x with
       | some (cap, rest) => cap :: genScanF specFindCapture n rest false
       | none => genScanF specFindCapture n cs false) ++ [[c]] := by
  rcases findCapture_rel x with heq | ⟨hspec, hall, hcode⟩
  · rw [heq]
    cases hsp : specFindCapture x with
    | none => exact ih cs false
    | some pr =>
      obtain ⟨cap, rest⟩ := pr
      rcases ih rest false with h | ⟨c, hc1, hc2, h⟩
      · left
        show cap :: genScanF findCapture n rest false =
          cap :: genScanF specFindCapture n rest false
        rw [h]
      · right
        refine ⟨c, hc1, hc2, ?_⟩
        show cap :: genScanF findCapture n rest false =
          (cap :: genScanF specFindCapture n rest false) ++ [[c]]
        rw [h, List.cons_append]
  · rw [hspec]
    rcases hcode with hnone | ⟨c, rest, hsome, hc1, hc2, hrest⟩
    · rw [hnone]
      left
      show genScanF findCapture n cs false =
        genScanF specFindCapture n cs false
      rw [hfall findCapture hall, hfall specFindCapture hall]
    · rw [hsome]
      right
      refine ⟨c, hc1, hc2, ?_⟩
      show [c] :: genScanF findCapture n rest false =
        genScanF specFindCapture n cs false ++ [[c]]
      rw [hfall specFindCapture hall,
        genScanF_allspace findCapture n rest hrest]
      simp

theorem genScan_code_spec (fuel : Nat) :
    ∀ (l : List Char) (b : Bool),
      genScanF findCapture fuel l b = genScanF specFindCapture fuel l b ∨
      ∃ c, isPySpace c = true ∧ ¬ c = '\n' ∧
        genScanF findCapture fuel l b =
          genScanF specFindCapture fuel l b ++ [[c]] := by
  induction fuel with
  | zero => intro l b; left; rfl
  | succ n ih =>
    intro l b
    match l with
    | [] => left; rfl
    | c :: cs =>
      rw [genScanF_cons, genScanF_cons]
      by_cases hb : (b && isGlyph c) = true
      · rw [scanAttempt_pos findCapture c cs b hb,
          scanAttempt_pos specFindCapture c cs b hb]
        exact scanMatch_helper n ih cs cs
          (fun fc hws => genScanF_allspace fc n cs hws)
      · by_cases hc : c = '\n'
        · match cs with
          | [] =>
            rw [scanAttempt_nl_nil findCapture c b hb hc,
              scanAttempt_nl_nil specFindCapture c b hb hc]
            exact ih [] false
          | g :: cs2 =>
            rw [scanAttempt_nl_cons findCapture g cs2 b hb hc,
              scanAttempt_nl_cons specFindCapture g cs2 b hb hc]
            by_cases hg : isGlyph g = true
            · rw [if_pos hg, if_pos hg]
              exact scanMatch_helper n ih cs2 (g :: cs2)
                (fun fc hws => genScanF_glyph_allspace fc n hg cs2 hws)
            · rw [if_neg hg, if_neg hg]
              exact ih (g :: cs2) false
        · rw [scanAttempt_none findCapture c cs b hb hc,
            scanAttempt_none specFindCapture c cs b hb hc]
          exact ih cs false

/-! ## The achievement-flagger pipeline ignores the backtracking capture -/

theorem bulletFlag_single_space {c : Char} (h1 : isPySpace c = true) :
    bulletFlag [c] = false := by
  rw [bulletFlag]
  have hsp : pySplit [c] = [] := by
    apply pySplit_allspace
    intro x hx
    rw [List.mem_singleton] at hx
    rw [hx]
    exact h1
  rw [hsp]
  simp

theorem take_filter_append_garbage (xs : List (List Char)) (g : List Char)
    (hg : bulletFlag g = false) (n : Nat) :
    ((xs ++ [g]).take n).filter bulletFlag = (xs.take n).filter bulletFlag := by
  rw [List.take_append_eq_append_take, List.filter_append]
  have hz : (([g].take (n - xs.length)).filter bulletFlag) = [] := by
    cases hk : n - xs.length with
    | zero => rfl
    | succ m =>
      rw [List.take_of_length_le (by simp)]
      rw [List.filter_cons, hg]
      rfl
  rw [hz, List.append_nil]

theorem suggestions_code_spec (text : String) :
    suggest_quantified_achievements text = amendedSuggestions text := by
  simp only [suggest_quantified_achievements, amendedSuggestions, scanBullets,
    specScanBullets]
  rcases genScan_code_spec (text.data.length + 1) text.data true with
    h | ⟨c, hc1, _, h⟩
  · rw [h]
  · rw [h, take_filter_append_garbage _ _ (bulletFlag_single_space hc1)]

theorem suggestion_mem_flag {text : String} {pr : String × String}
    (h : pr ∈ suggest_quantified_achievements text) :
    ∃ b, bulletFlag b = true ∧ pr = (String.mk (pyStrip b), REWRITE_TIP) := by
  rw [suggest_quantified_achievements] at h
  have h1 := (List.take_sublist _ _).subset h
  obtain ⟨b, hb, heq⟩ := List.mem_map.mp h1
  exact ⟨b, List.of_mem_filter hb, heq.symm⟩

theorem vague_of_flag {b : List Char} (hf : bulletFlag b = true) :
    VAGUE_PATTERNS.any
      (fun p => containsSub p.data ((pyStrip b).map pyLower)) = true := by
  rw [bulletFlag, Bool.and_eq_true] at hf
  obtain ⟨p, hp, hpc⟩ := List.any_eq_true.mp hf.1
  apply List.any_eq_true.mpr
  refine ⟨p, hp, ?_⟩
  rw [containsSub, decide_eq_true_eq] at hpc ⊢
  rw [← pyStrip_map_pyLower]
  have hp5 : p = "responsible for" ∨ p = "worked on" ∨ p = "helped with" ∨
      p = "assisted" ∨ p = "involved in" := by
    simpa [VAGUE_PATTERNS] using hp
  apply infix_pyStrip ?_ ?_ ?_ hpc
  · rcases hp5 with rfl | rfl | rfl | rfl | rfl <;> decide
  · rcases hp5 with rfl | rfl | rfl | rfl | rfl <;> decide
  · rcases hp5 with rfl | rfl | rfl | rfl | rfl <;> decide

theorem words_of_flag {b : List Char} (hf : bulletFlag b = true) :
    4 ≤ (pySplit (pyStrip b)).length := by
  rw [bulletFlag, Bool.and_eq_true] at hf
  rw [pySplit_strip]
  exact of_decide_eq_true hf.2

/-! ## Agreement of the checked variants with the plain model -/

theorem foldlM_option_of_pure {β α : Type} {f : β → α → Option β}
    {g : β → α → β} (hf : ∀ s a, f s a = some (g s a)) :
    ∀ (l : List α) (b : β), List.foldlM f b l = some (l.foldl g b) := by
  intro l
  induction l with
  | nil => intro b; rfl
  | cons a l2 ih =>
    intro b
    rw [List.foldlM_cons, hf, List.foldl_cons]
    exact ih (g b a)

theorem mapM_option_of_pure {α β : Type} {f : α → Option β} {g : α → β}
    (hf : ∀ a, f a = some (g a)) :
    ∀ l : List α, List.mapM f l = some (l.map g) := by
  intro l
  induction l with
  | nil => rfl
  | cons a l2 ih =>
    rw [List.mapM_cons, hf, ih, List.map_cons]
    rfl

theorem pyIntDivChk_pos {a b : Nat} (hb : ¬ b = 0) :
    pyIntDivChk a b = some (a / b) := by
  rw [pyIntDivChk, if_neg hb]

theorem pyDivChk_ne {a b : ℚ} (hb : ¬ b = 0) :
    pyDivChk a b = some (a / b) := by
  rw [pyDivChk, if_neg hb]

theorem detectPass1Chk_eq (lines : List (List Char)) :
    detectPass1Chk lines = some (detectPass1 lines) := by
  rw [detectPass1Chk, detectPass1]
  rw [foldlM_option_of_pure (g := fun (st : String × List (String × Nat)) line =>
    let lower := line.map pyLower
    let isHeading := line.length ≤ 120
    let matched := SECTION_ALIASES.find? (fun p => hasWBMatch p.1.data lower)
    let current :=
      match matched with
      | some p => if isHeading then p.2 else st.1
      | none => st.1
    (current, bump st.2 current (max 1 (line.length / 60))))]
  · rfl
  · intro st line
    rw [pyIntDivChk_pos (by omega)]
    rfl

theorem detectFallbackChk_eq (text : String) :
    detectFallbackChk text = some (detectFallback text) := by
  rw [detectFallbackChk, detectFallback]
  rw [mapM_option_of_pure (g := fun (p : String × Nat) =>
    if 0 < p.2 then (p.1, max 1 (p.2 / 2)) else p)]
  · rfl
  · intro p
    by_cases hp : 0 < p.2
    · rw [if_pos hp, if_pos hp, pyIntDivChk_pos (by omega)]
      rfl
    · rw [if_neg hp, if_neg hp]
      rfl

theorem detect_sectionsChk_eq (text : String) :
    detect_sectionsChk text = some (detect_sections text) := by
  rw [detect_sectionsChk, detect_sections]
  rw [detectPass1Chk_eq]
  show (if _ then detectFallbackChk text else _) = _
  simp only [pass1Canonical]
  split
  · rw [detectFallbackChk_eq]
  · rfl

theorem compute_ats_scoreChk_eq (resume_text : String)
    (role_keywords : Finset String) :
    compute_ats_scoreChk resume_text role_keywords =
      some (compute_ats_score resume_text role_keywords) := by
  rw [compute_ats_scoreChk, compute_ats_score]
  have hden : ¬ (((max 1 role_keywords.card : Nat) : ℚ) = 0) :=
    Nat.cast_ne_zero.mpr (by omega)
  rw [pyDivChk_ne hden, detect_sectionsChk_eq]
  rfl

theorem analyze_visual_insightsChk_eq (resume_text : String)
    (role_keywords : Finset String) :
    analyze_visual_insightsChk resume_text role_keywords =
      some (analyze_visual_insights resume_text role_keywords) := by
  simp only [analyze_visual_insightsChk, analyze_visual_insights]
  have hsen : ¬ (((max 1
      (resume_text.data.count '.' + resume_text.data.count '!' +
        resume_text.data.count '?') : Nat) : ℚ) = 0) :=
    Nat.cast_ne_zero.mpr (by omega)
  rw [detect_sectionsChk_eq, pyDivChk_ne hsen]
  rfl

/-! ## Claims -/

/-- C10: every section present in the Section Detector's output map has
weight at least 1, on both the heading-driven pass and the keyword-density
fallback pass. -/
theorem claim10_positive_weights (text : String) :
    (detect_sections text).all (fun p => decide (1 ≤ p.2)) = true := by
  rw [List.all_eq_true]
  intro p hp
  exact decide_eq_true (detect_sections_pos text p hp)

/-- C2 (counterexample): on `c2Text` pass 1 finds exactly one non-zero
canonical section ("summary", weight 3), so the claimed trigger
"fewer than 2 distinct non-zero sections" holds, yet the detector keeps the
pass-1 map and does not return the (empty) fallback map. -/
theorem claim2_counterexample :
    pass1NonzeroCount c2Text < 2 ∧
    detect_sections c2Text = [("summary", 3)] ∧
    detectFallback c2Text = [] ∧
    ¬ detect_sections c2Text = detectFallback c2Text := by
  refine ⟨by decide, by decide, by decide, by decide⟩

/-- C2 (amended): the detector discards pass 1 and returns the pass-2
fallback map exactly when pass 1 yields no non-zero canonical section
(rather than fewer than 2) or a combined weight below 3; otherwise it
returns exactly the pass-1 map. -/
theorem claim2_amended (text : String) :
    detect_sections text =
      if pass1NonzeroCount text = 0 ∨ pass1Weight text < 3 then
        detectFallback text
      else pass1Canonical text := by
  simp only [detect_sections]
  refine if_congr ?_ rfl rfl
  rw [pass1NonzeroCount, pass1Weight, pass1Canonical_filter_nonzero]
  simp [List.isEmpty_iff, List.length_eq_zero]

/-- C3 (counterexample): on the spec's worked example, the heading
"Experience" matches no alias (the alias table has no bare "experience"
entry), so the section "experience" does not appear in the detector's
output, contradicting the claim. -/
theorem claim3_counterexample :
    ¬ ("experience" ∈ (detect_sections exampleResume).map Prod.fst) := by
  decide

/-- C3 (amended): on the worked example the resolver returns the
software-engineer preset and the flagger emits exactly one suggestion for
the bullet, as claimed; but the detector maps every line to the default
"summary" section (weight 5), since neither "Summary" nor "Experience"
matches any alias-table phrase. -/
theorem claim3_amended :
    role_keywords_for "Software Engineer" "" exampleResume =
      softwareEngineerKeywords.toFinset ∧
    detect_sections exampleResume = [("summary", 5)] ∧
    suggest_quantified_achievements exampleResume =
      [("responsible for managing a team of five people", REWRITE_TIP)] := by
  refine ⟨by decide, by decide, by decide⟩

/-- C5 (counterexample): a bullet line indented by two spaces is not
matched by the flagger's pattern (which allows no whitespace between the
line start and the glyph), so the code emits no suggestion while the claim,
which allows optional leading whitespace, demands one. -/
theorem claim5_counterexample :
    suggest_quantified_achievements c5Text = [] ∧
    claimSuggestionsAsStated c5Text =
      [("responsible for managing a team", REWRITE_TIP)] := by
  refine ⟨by decide, by decide⟩

/-- C5 (amended): bullets are anchored at the start of the text or directly
after a newline with no leading whitespace, the capture running to the end
of the line holding the first non-whitespace character after the glyph's
whitespace separator; the first 60 captures are filtered by the
vague-phrase/4-word test and capped at 20 in document order, and every
emitted original keeps at least 4 words and a vague-phrase trigger. -/
theorem claim5_amended (text : String) :
    suggest_quantified_achievements text = amendedSuggestions text ∧
    (suggest_quantified_achievements text).length ≤ 20 ∧
    (suggest_quantified_achievements text).all
      (fun pr => decide (pr.2 = REWRITE_TIP) &&
        decide (4 ≤ (pySplit pr.1.data).length) &&
        VAGUE_PATTERNS.any
          (fun p => containsSub p.data (pr.1.data.map pyLower))) = true := by
  refine ⟨suggestions_code_spec text, ?_, ?_⟩
  · rw [suggest_quantified_achievements, List.length_take]
    exact min_le_left _ _
  · rw [List.all_eq_true]
    intro pr hpr
    obtain ⟨b, hflag, heq⟩ := suggestion_mem_flag hpr
    rw [heq]
    rw [Bool.and_eq_true, Bool.and_eq_true]
    refine ⟨⟨decide_eq_true rfl, decide_eq_true ?_⟩, ?_⟩
    · exact words_of_flag hflag
    · exact vague_of_flag hflag

/-- C7: the ATS score is an integer clamped to [0, 100] for every input,
and with an empty keyword set the coverage term equals 1 exactly, because
the divisor is `max 1 |keywords|`. -/
theorem claim7_score_range (resume_text : String)
    (role_keywords : Finset String) :
    (0 ≤ (compute_ats_score resume_text role_keywords).score ∧
      (compute_ats_score resume_text role_keywords).score ≤ 100) ∧
    atsCoverage resume_text (∅ : Finset String) = 1 := by
  refine ⟨⟨?_, ?_⟩, ?_⟩
  · exact le_max_left 0 _
  · exact max_le (by norm_num) (min_le_left _ _)
  · rw [atsCoverage, atsMissing]
    simp

/-- C8: the missing-keyword list holds at most 100 entries, is sorted
ascending, and no listed keyword occurs as a token of the résumé. -/
theorem claim8_missing_keywords (resume_text : String)
    (role_keywords : Finset String) :
    (compute_ats_score resume_text role_keywords).missing_keywords.length ≤
      100 ∧
    List.Sorted (· ≤ ·)
      (compute_ats_score resume_text role_keywords).missing_keywords ∧
    (compute_ats_score resume_text role_keywords).missing_keywords.all
      (fun k => decide (¬ k ∈ simple_tokenize resume_text)) = true := by
  have hmk : (compute_ats_score resume_text role_keywords).missing_keywords =
      (atsMissing resume_text role_keywords).take 100 := rfl
  refine ⟨?_, ?_, ?_⟩
  · rw [hmk, List.length_take]
    exact min_le_left _ _
  · rw [hmk]
    exact List.Pairwise.sublist (List.take_sublist _ _)
      (Finset.sort_sorted _ _)
  · rw [hmk, List.all_eq_true]
    intro k hk
    have h1 : k ∈ atsMissing resume_text role_keywords :=
      (List.take_sublist _ _).subset hk
    rw [atsMissing, Finset.mem_sort] at h1
    have h2 := Finset.mem_filter.mp h1
    apply decide_eq_true
    intro hmem
    exact h2.2 (List.mem_toFinset.mpr hmem)

/-- C9: each of the eight core functions is total — its checked variant,
which guards every division of the source (the only operations that can
raise on well-typed string inputs), always returns a result, and that
result agrees with the plain model. -/
theorem claim9_totality (text job_role job_desc resume_text : String)
    (role_keywords : Finset String) :
    simple_tokenizeChk text = some (simple_tokenize text) ∧
    role_keywords_forChk job_role job_desc resume_text =
      some (role_keywords_for job_role job_desc resume_text) ∧
    categorize_keywordsChk job_role role_keywords =
      some (categorize_keywords job_role role_keywords) ∧
    detect_sectionsChk text = some (detect_sections text) ∧
    compute_ats_scoreChk text role_keywords =
      some (compute_ats_score text role_keywords) ∧
    analyze_recruiter_scanChk text = some (analyze_recruiter_scan text) ∧
    analyze_visual_insightsChk text role_keywords =
      some (analyze_visual_insights text role_keywords) ∧
    suggest_quantified_achievementsChk text =
      some (suggest_quantified_achievements text) :=
  ⟨rfl, rfl, rfl, detect_sectionsChk_eq text,
    compute_ats_scoreChk_eq text role_keywords, rfl,
    analyze_visual_insightsChk_eq text role_keywords, rfl⟩

/-- Coverage is between 0 and 1, so the raw score is nonnegative and the
source's `int()` truncation coincides with the floor. -/
theorem atsRaw_nonneg (resume_text : String) (role_keywords : Finset String) :
    0 ≤ 60 * atsCoverage resume_text role_keywords +
      40 * min 1 (((detect_sections resume_text).length : ℚ) / 6) := by
  have hlen : (atsMissing resume_text role_keywords).length =
      (role_keywords.filter
        (fun k => ¬ k ∈ (simple_tokenize resume_text).toFinset)).card :=
    Finset.length_sort _
  have hcov : 0 ≤ atsCoverage resume_text role_keywords := by
    rw [atsCoverage, hlen]
    have h1 : (role_keywords.filter
        (fun k => ¬ k ∈ (simple_tokenize resume_text).toFinset)).card ≤
        max 1 role_keywords.card :=
      le_trans (Finset.card_filter_le _ _) (le_max_right _ _)
    have h2 : (0 : ℚ) < ((max 1 role_keywords.card : Nat) : ℚ) := by
      have : (1 : Nat) ≤ max 1 role_keywords.card := le_max_left _ _
      exact_mod_cast lt_of_lt_of_le Nat.zero_lt_one this
    have h3 : (((role_keywords.filter
        (fun k => ¬ k ∈ (simple_tokenize resume_text).toFinset)).card : ℚ)) /
        ((max 1 role_keywords.card : Nat) : ℚ) ≤ 1 := by
      rw [div_le_one h2]
      exact_mod_cast h1
    linarith
  have hmin : (0 : ℚ) ≤ min 1 (((detect_sections resume_text).length : ℚ) / 6) := by
    apply le_min
    · norm_num
    · positivity
  linarith

/-- C1 (amended): the ATS score equals the clamp to [0, 100] of the
truncation toward zero — equivalently the floor, the raw value being
nonnegative — of `60 × coverage + 40 × min(1, |detected_sections| / 6)`,
with coverage `1 − |missing| / max(1, |role keywords|)`. -/
theorem claim1_amended (resume_text : String) (role_keywords : Finset String) :
    (compute_ats_score resume_text role_keywords).score =
      amendedAtsScore resume_text role_keywords := by
  have hlen : (atsMissing resume_text role_keywords).length =
      (role_keywords.filter
        (fun k => ¬ k ∈ (simple_tokenize resume_text).toFinset)).card :=
    Finset.length_sort _
  show max 0 (min 100 (pytrunc
      (60 * atsCoverage resume_text role_keywords +
        40 * min 1 (((detect_sections resume_text).length : ℚ) / 6)))) = _
  rw [pytrunc, if_pos (atsRaw_nonneg resume_text role_keywords)]
  rw [amendedAtsScore, atsCoverage, hlen]

/-- C1 (counterexample): with keyword set `c1Keywords` (16 keywords, 3 of
them missing from `c1Resume`) and no detected sections, the raw score is
48.75; the code truncates it to 48 while the claimed round-to-nearest
formula yields 49. -/
theorem claim1_counterexample :
    (compute_ats_score c1Resume c1Keywords).score = 48 ∧
    claimAtsScoreAsStated c1Resume c1Keywords = 49 := by
  have hsec : detect_sections c1Resume = [] := by decide
  have hfil : c1Keywords.filter
      (fun k => ¬ k ∈ (simple_tokenize c1Resume).toFinset) =
      (["xx", "yy", "zz"] : List String).toFinset := by decide
  have hc3 : ((["xx", "yy", "zz"] : List String).toFinset).card = 3 := by
    decide
  have hmisslen : (atsMissing c1Resume c1Keywords).length = 3 := by
    rw [atsMissing, Finset.length_sort, hfil, hc3]
  have hcard : c1Keywords.card = 16 := by decide
  have hcov : atsCoverage c1Resume c1Keywords = 13 / 16 := by
    rw [atsCoverage, hmisslen, hcard]
    norm_num
  have hraw : 60 * atsCoverage c1Resume c1Keywords +
      40 * min 1 (((detect_sections c1Resume).length : ℚ) / 6) = 195 / 4 := by
    rw [hcov, hsec]
    norm_num
  constructor
  · show max 0 (min 100 (pytrunc
        (60 * atsCoverage c1Resume c1Keywords +
          40 * min 1 (((detect_sections c1Resume).length : ℚ) / 6)))) = 48
    rw [hraw, pytrunc, if_pos (by norm_num)]
    have hfl : ⌊(195 / 4 : ℚ)⌋ = 48 := by
      rw [Int.floor_eq_iff]
      constructor <;> norm_num
    rw [hfl]
    decide
  · rw [claimAtsScoreAsStated]
    rw [hfil, hsec, hcard]
    rw [hc3]
    have hval : (1 : ℚ) - (3 : Nat) / ((max 1 16 : Nat) : ℚ) = 13 / 16 := by
      norm_num
    have hrd : round ((60 : ℚ) * ((1 : ℚ) - ((3 : Nat) : ℚ) /
        ((max 1 16 : Nat) : ℚ)) + 40 * min 1 ((([] :
        List (String × Nat)).length : ℚ) / 6)) = 49 := by
      have harg : (60 : ℚ) * ((1 : ℚ) - ((3 : Nat) : ℚ) /
          ((max 1 16 : Nat) : ℚ)) + 40 * min 1 ((([] :
          List (String × Nat)).length : ℚ) / 6) = 195 / 4 := by
        norm_num
      rw [harg, round_eq]
      have : (195 / 4 : ℚ) + 1 / 2 = 197 / 4 := by norm_num
      rw [this]
      rw [Int.floor_eq_iff]
      constructor <;> norm_num
    rw [hrd]
    decide

/-- C4 (counterexample): a document whose first 20 lines are blank and
whose 21st line is "hello" has a non-blank line, so under the claim's
"first 20 non-blank lines" selection the highlights would be "hello"; the
code slices the first 20 lines before dropping blanks and returns both
placeholders. -/
theorem claim4_counterexample :
    analyze_recruiter_scan c4Text =
      ("No immediate highlights detected.",
        "Short resume header; focus on punchy summary.") ∧
    (claimRecruiterScanAsStated c4Text).1 = "hello" := by
  refine ⟨by decide, by decide⟩

/-- C4 (amended): the analyzer selects the non-blank lines among the first
20 lines of the document (not the first 20 non-blank lines); highlights are
the first 8 of those, stripped and joined (placeholder when the selection
is empty), and ignored is the rest joined (placeholder when the selection
has 8 or fewer lines). -/
theorem claim4_amended (text : String) :
    analyze_recruiter_scan text = amendedRecruiterScan text := by
  simp only [analyze_recruiter_scan, amendedRecruiterScan]
  have hsel : ((pySplitlines text.data).take 20).filter
      (fun l => ¬ (pyStrip l).isEmpty) =
      ((pySplitlines text.data).take 20).filter
      (fun l => l.any (fun c => ¬ isPySpace c)) := by
    apply List.filter_congr
    intro l _
    by_cases h : pyStrip l = []
    · have hws := (pyStrip_eq_nil_iff l).mp h
      have h1 : (decide (¬ (pyStrip l).isEmpty = true)) = false := by
        simp [h]
      have h2 : l.any (fun c => ¬ isPySpace c) = false := by
        rw [List.any_eq_false]
        intro c hc
        simp [hws c hc]
      rw [h1, h2]
    · have hex : ∃ c ∈ l, ¬ isPySpace c = true := by
        by_contra hall
        push_neg at hall
        apply h
        apply (pyStrip_eq_nil_iff l).mpr
        intro c hc
        exact hall c hc
      have h1 : (decide (¬ (pyStrip l).isEmpty = true)) = true := by
        simp [List.isEmpty_iff, h]
      have h2 : l.any (fun c => ¬ isPySpace c) = true := by
        rw [List.any_eq_true]
        obtain ⟨c, hc, hcp⟩ := hex
        exact ⟨c, hc, by simpa using hcp⟩
      rw [h1, h2]
  rw [hsel]
  set sel := (((pySplitlines text.data).take 20).filter
    (fun l => l.any (fun c => ¬ isPySpace c))).map pyStrip with hseldef
  have hne : ∀ l ∈ sel, l ≠ [] := by
    intro l hl
    rw [hseldef] at hl
    obtain ⟨x, hx, hxe⟩ := List.mem_map.mp hl
    have hpx := List.of_mem_filter hx
    intro hle
    rw [← hxe] at hle
    have hall := (pyStrip_eq_nil_iff _).mp hle
    obtain ⟨c, hc, hcp⟩ := List.any_eq_true.mp hpx
    exact (by simpa using hcp : ¬ isPySpace c = true) (hall c hc)
  refine Prod.ext ?_ ?_
  · show (if joinNL (sel.take 8) = "" then "No immediate highlights detected."
        else joinNL (sel.take 8)) =
      (if sel.isEmpty then "No immediate highlights detected."
        else joinNL (sel.take 8))
    have hjoin : (joinNL (sel.take 8) = "") ↔ sel.isEmpty = true := by
      rw [joinNL_eq_empty_iff _
        (fun l hl => hne l ((List.take_sublist _ _).subset hl))]
      rw [List.take_eq_nil_iff]
      simp [List.isEmpty_iff]
    by_cases he : sel.isEmpty = true
    · rw [if_pos (hjoin.mpr he), if_pos he]
    · rw [if_neg (fun hc => he (hjoin.mp hc)), if_neg he]
  · show (if 8 < sel.length then joinNL (sel.drop 8)
        else "Short resume header; focus on punchy summary.") =
      (if sel.length ≤ 8 then "Short resume header; focus on punchy summary."
        else joinNL (sel.drop 8))
    by_cases hlen : 8 < sel.length
    · rw [if_pos hlen, if_neg (by omega)]
    · rw [if_neg hlen, if_pos (by omega)]

/-- C6 (counterexample): a non-empty job description made of punctuation
only ("!!!") produces no tokens, so the resolver returns the empty keyword
set although not all three inputs are empty strings. -/
theorem claim6_counterexample :
    role_keywords_for "" "!!!" "" = (∅ : Finset String) ∧ ¬ ("!!!" = "") := by
  refine ⟨by decide, by decide⟩

/-- C6 (amended): the resolver never fails, and the keyword set is empty
exactly when no preset key occurs in the lowered role label and the text
input selected by the fallback chain — the job description when it is a
non-empty string, otherwise the résumé — yields no qualifying tokens
(tokens of length ≥ 3 for the job description). -/
theorem claim6_amended (job_role job_desc resume_text : String) :
    role_keywords_for job_role job_desc resume_text = (∅ : Finset String) ↔
      (presetMatch job_role = false ∧
        ((¬ job_desc = "" ∧
            (simple_tokenize job_desc).filter (fun t => 3 ≤ t.length) = []) ∨
          (job_desc = "" ∧ simple_tokenize resume_text = []))) := by
  rw [role_keywords_for, presetMatch]
  cases hfind : ROLE_PRESETS.find?
      (fun p => containsSub p.1.data (job_role.data.map pyLower)) with
  | some pr =>
    have hmem : pr ∈ ROLE_PRESETS := List.mem_of_find?_eq_some hfind
    have hvocab : ∀ q ∈ ROLE_PRESETS,
        ¬ q.2.toFinset = (∅ : Finset String) := by decide
    have hp : (fun p => containsSub p.1.data (job_role.data.map pyLower))
        pr = true :=
      @List.find?_some _
        (fun p => containsSub p.1.data (job_role.data.map pyLower))
        pr ROLE_PRESETS hfind
    have hany : ROLE_PRESETS.any
        (fun p => containsSub p.1.data (job_role.data.map pyLower)) = true :=
      List.any_eq_true.mpr ⟨pr, hmem, hp⟩
    constructor
    · intro h
      exact absurd h (hvocab pr hmem)
    · rintro ⟨hfalse, _⟩
      rw [hany] at hfalse
      cases hfalse
  | none =>
    have hanyf : ROLE_PRESETS.any
        (fun p => containsSub p.1.data (job_role.data.map pyLower)) = false := by
      rw [List.any_eq_false]
      intro x hx
      exact (List.find?_eq_none.mp hfind) x hx
    rw [hanyf]
    by_cases hjd : job_desc = ""
    · rw [if_neg (by simp [hjd])]
      rw [List.toFinset_eq_empty_iff]
      rw [mostCommonKeys_eq_nil_iff _ 40 (by norm_num)]
      simp [hjd]
    · rw [if_pos hjd]
      rw [List.toFinset_eq_empty_iff]
      rw [mostCommonKeys_eq_nil_iff _ 60 (by norm_num)]
      simp [hjd]

end Resume
